import Mathlib

/-
  Verification of the logseq-tokenizer utility (src/main.py) against its
  natural-language specification.

  Modelling conventions:
  * Python float arithmetic is modelled as exact rational arithmetic (ℚ),
    and Python's "{:.6f}" formatting as correct rounding of the exact value
    to 6 decimal places with ties resolved to even (the rounding rule of
    Python's float formatting).
  * Python strings are Lean `String`s; a CSV file is modelled at the record
    level as a `List (List String)` (one inner list per row, one element per
    cell), exactly the lists handed to `csv.writer.writerow`.
  * A directory listing (`os.listdir`) is a list of entries, each carrying a
    name and either file data or (for subdirectories) a list of sub-entries.
    File data is either UTF-8-decodable text or undecodable bytes.
  * Opening a file in mode "w" truncates it: the previous content is
    discarded.  Aborting mid-run leaves whatever rows were already written.
-/

namespace LogseqTokenizer

/-! ## Decimal digit and string rendering machinery -/

/-- The decimal digit character for a digit value below 10. -/
def digitChar (d : Nat) : Char := Char.ofNat (48 + d)

/-- The numeric value of a decimal digit character. -/
def charDigit (c : Char) : Nat := c.toNat - 48

/-- Little-endian base-10 digits, with an explicit structural fuel so that the
kernel can evaluate it; `natDigits` instantiates the fuel. -/
def natDigitsAux : Nat → Nat → List Nat
  | 0, _ => []
  | _ + 1, 0 => []
  | fuel + 1, n + 1 => (n + 1) % 10 :: natDigitsAux fuel ((n + 1) / 10)

/-- Little-endian base-10 digits of a natural number (empty for 0). -/
def natDigits (n : Nat) : List Nat := natDigitsAux n n

/-- Big-endian decimal digit characters of a natural number (empty for 0). -/
def natToDigitChars (n : Nat) : List Char := ((natDigits n).map digitChar).reverse

/-- Decimal rendering of a natural number, as Python's `str` on a
non-negative `int` produces it. -/
def natToString (n : Nat) : String :=
  if n = 0 then "0" else String.mk (natToDigitChars n)

/-- The exactly-six fractional digit characters used by `"{:.6f}"` for a
fractional numerator `n < 10 ^ 6`: the digits of `n` left-padded with zeros
to width 6. -/
def fracChars (n : Nat) : List Char :=
  List.replicate (6 - (natToDigitChars n).length) '0' ++ natToDigitChars n

/-- Round a rational to the nearest integer, ties to even: the rounding used
by Python's float-to-decimal formatting, applied here to the exact value. -/
def rhe (q : ℚ) : ℤ :=
  if q - ⌊q⌋ < 1/2 then ⌊q⌋
  else if (1 : ℚ)/2 < q - ⌊q⌋ then ⌊q⌋ + 1
  else if ⌊q⌋ % 2 = 0 then ⌊q⌋ else ⌊q⌋ + 1

/-- Python's `"{:.6f}".format`: the value rounded to six decimal places,
rendered with an integer part, a dot, and exactly six fractional digits.
(The sign of a negative value that rounds to zero is not modelled; every
value formatted by this program is non-negative.) -/
def format6 (q : ℚ) : String :=
  if rhe (q * 1000000) < 0 then
    "-" ++ natToString ((rhe (q * 1000000)).natAbs / 1000000) ++ "." ++
      String.mk (fracChars ((rhe (q * 1000000)).natAbs % 1000000))
  else
    natToString ((rhe (q * 1000000)).natAbs / 1000000) ++ "." ++
      String.mk (fracChars ((rhe (q * 1000000)).natAbs % 1000000))

/-- Python's `str.ljust(w, "0")`: right-pad with zero characters up to
width `w` (no change if the string is already at least that long). -/
def ljustZ (s : String) (w : Nat) : String :=
  s ++ String.mk (List.replicate (w - s.length) '0')

/-- Numeric value of a big-endian list of decimal digit characters. -/
def parseNatC (l : List Char) : Nat :=
  Nat.ofDigits 10 ((l.map charDigit).reverse)

/-- Numeric value of a decimal digit string, as Python's `int` parses it. -/
def parseNat (s : String) : Nat := parseNatC s.data

/-- Split a character list at the first dot; everything before it in the
first component, everything after it in the second. -/
def splitDot : List Char → List Char × List Char
  | [] => ([], [])
  | c :: cs => if c = '.' then ([], cs) else (c :: (splitDot cs).1, (splitDot cs).2)

/-- Python's `float` applied to the non-negative decimal strings this
program produces, modelled as the exact rational value of the decimal. -/
def parseDec (s : String) : ℚ :=
  (parseNatC (splitDot s.data).1 : ℚ) +
    (parseNatC (splitDot s.data).2 : ℚ) / (10 : ℚ) ^ (splitDot s.data).2.length

/-- Python's `str.endswith`, restated structurally (suffix test) so that the
kernel can evaluate it. -/
def strEndsWith (s pat : String) : Bool :=
  go s.data.reverse pat.data.reverse
where
  /-- Prefix test on reversed character lists. -/
  go : List Char → List Char → Bool
    | _, [] => true
    | [], _ :: _ => false
    | c :: cs, d :: ds => c == d && go cs ds

/-! ## The tokenizer (external collaborator) -/

/-- Modelled from the spec: the fixed tokenization scheme `cl100k_base` is
supplied by the external tiktoken library, absent from this repository.  The
spec (§4.1, glossary) requires only an opaque, deterministic pure function
mapping text to a sequence of scheme-defined token units; it is modelled
here as the simplest such partition of the text, one unit per character. -/
def cl100k_base_encode (s : String) : List String :=
  s.data.map (fun c => String.mk [c])

/-- Modelled from the spec: `tiktoken.get_encoding` — looks up a named
encoding, failing (`none`) for names it does not know. -/
def get_encoding (encoding_name : String) : Option (String → List String) :=
  if encoding_name = "cl100k_base" then some cl100k_base_encode else none

/-- Token count of the text under the fixed scheme (spec-side shorthand). -/
def tokOf (s : String) : Nat := (cl100k_base_encode s).length

/-- `num_tokens_from_string` from src/main.py: look up the encoding and
return the number of tokens it produces on the string (`none` models the
exception `tiktoken.get_encoding` raises on an unknown scheme name). -/
def num_tokens_from_string (string : String) (encoding_name : String) : Option Nat :=
  (get_encoding encoding_name).map (fun encoding => (encoding string).length)

/-! ## File and directory model -/

/-- Contents of a file on disk: UTF-8-decodable text, or bytes whose
decoding raises `UnicodeDecodeError`. -/
inductive FileData where
  | text (s : String)
  | undecodable
deriving DecidableEq

/-- What a directory entry names: a regular file, or a subdirectory with
its own (one level of) entries.  The program never recurses, so deeper
nesting is irrelevant to every claim. -/
inductive EntryData where
  | fileE (d : FileData)
  | dirE (sub : List (String × FileData))

/-- One entry of `os.listdir`: a name plus what it refers to. -/
structure Entry where
  name : String
  data : EntryData

/-- Opening an entry for reading: a regular file yields its data; opening a
directory raises `IsADirectoryError` (`none`). -/
def readEntry : EntryData → Option FileData
  | .fileE d => some d
  | .dirE _ => none

/-- `tokenize_md_file` from src/main.py: read and decode the file, then
return `(character_count, token_count)`; `none` models the propagated
exception when the contents cannot be decoded. -/
def tokenize_md_file (d : FileData) : Option (Nat × Nat) :=
  match d with
  | .text content =>
      (num_tokens_from_string content "cl100k_base").map
        (fun tokens => (content.length, tokens))
  | .undecodable => none

/-! ## Price estimation -/

/-- The fixed pricing table of `calculate_estimated_price` (USD per 1000
tokens, March 2024). -/
def pricing : List (String × ℚ) :=
  [("text-embedding-3-small", 2/100000),
   ("text-embedding-3-large", 13/100000),
   ("text-embedding-ada-002", 1/10000)]

/-- `calculate_estimated_price` from src/main.py: price the token count
under the named model: `(token_count / 1000) * rate`, with a default rate of
0.01 for names outside the table, formatted to six decimal places and
right-padded with zeros to at least ten characters. -/
def calculate_estimated_price (token_count : Nat) (model_name : String) : String :=
  ljustZ
    (format6 ((token_count : ℚ) / 1000 *
      (match pricing.lookup model_name with
       | some cost_per_thousand => cost_per_thousand
       | none => 1/100)))
    10

/-! ## The folder accountant -/

/-- Running accumulator state of `process_md_files_in_folder`: the document
rows written so far plus the running totals. -/
structure RunAcc where
  rows : List (List String)
  charTotal : Nat
  tokenTotal : Nat
  smallTotal : ℚ
  largeTotal : ℚ
  adaTotal : ℚ

/-- The accumulators at the start of a run. -/
def initAcc : RunAcc := ⟨[], 0, 0, 0, 0, 0⟩

/-- The CSV row written for one document. -/
def docRow (filename : String) (char_count tokens : Nat) : List String :=
  [filename, natToString char_count, natToString tokens,
   calculate_estimated_price tokens "text-embedding-3-small",
   calculate_estimated_price tokens "text-embedding-3-large",
   calculate_estimated_price tokens "text-embedding-ada-002"]

/-- One loop iteration of `process_md_files_in_folder` on a matching,
readable document: append its row and add to every total (the per-model
price strings are parsed back by `float` before being added). -/
def stepAcc (acc : RunAcc) (filename : String) (char_count tokens : Nat) : RunAcc :=
  { rows := acc.rows ++ [docRow filename char_count tokens]
    charTotal := acc.charTotal + char_count
    tokenTotal := acc.tokenTotal + tokens
    smallTotal := acc.smallTotal +
      parseDec (calculate_estimated_price tokens "text-embedding-3-small")
    largeTotal := acc.largeTotal +
      parseDec (calculate_estimated_price tokens "text-embedding-3-large")
    adaTotal := acc.adaTotal +
      parseDec (calculate_estimated_price tokens "text-embedding-ada-002") }

/-- Open a directory entry and tokenize it: `none` when opening raises
(`IsADirectoryError` for a subdirectory) or decoding raises
(`UnicodeDecodeError` for undecodable contents). -/
def readData (e : Entry) : Option (Nat × Nat) :=
  (readEntry e.data).bind tokenize_md_file

/-- The `for filename in os.listdir(folder_path)` loop: skip entries whose
name does not end in ".md", process the others in listing order, and stop
with `true` (aborted) as soon as one of them cannot be opened and decoded. -/
def runFold (acc : RunAcc) : List Entry → RunAcc × Bool
  | [] => (acc, false)
  | e :: es =>
    if strEndsWith e.name ".md" then
      match readData e with
      | some ct => runFold (stepAcc acc e.name ct.1 ct.2) es
      | none => (acc, true)
    else runFold acc es

/-- The fixed header row. -/
def headerRow : List String :=
  ["Filename", "Character Count", "Tokens", "text-embedding-3-small",
   "text-embedding-3-large", "text-embedding-ada-002"]

/-- The trailing totals row: the folder path in the filename field, the
summed counts, and each total price formatted to six decimal places
(without the ten-character padding of per-document prices). -/
def totalsRow (folder_path : String) (acc : RunAcc) : List String :=
  [folder_path, natToString acc.charTotal, natToString acc.tokenTotal,
   format6 acc.smallTotal, format6 acc.largeTotal, format6 acc.adaTotal]

/-- Outcome of one run: the rows of the CSV file left on disk, and whether
the run aborted with a propagated exception. -/
structure RunResult where
  file : List (List String)
  aborted : Bool

/-- Opening the destination in mode "w": the file is truncated, so whatever
content was there before (`previous`) is discarded. -/
def openWrite (previous : Option (List (List String))) : List (List String) := []

/-- `process_md_files_in_folder` from src/main.py: truncate the destination,
write the header, loop over the listing, and append the totals row — unless
the loop aborted, in which case the file keeps only what was written before
the exception and there is no totals row. -/
def process_md_files_in_folder (folder_path : String)
    (previous : Option (List (List String))) (listing : List Entry) : RunResult :=
  let r := runFold initAcc listing
  if r.2 then ⟨openWrite previous ++ headerRow :: r.1.rows, true⟩
  else ⟨openWrite previous ++ headerRow :: (r.1.rows ++ [totalsRow folder_path r.1]), false⟩

/-! ## Specification-side descriptions (for comparison with the code) -/

/-- The pricing table as the specification words it: three named rates and
a default for every other name. -/
def specRate (model_name : String) : ℚ :=
  if model_name = "text-embedding-3-small" then 2/100000
  else if model_name = "text-embedding-3-large" then 13/100000
  else if model_name = "text-embedding-ada-002" then 1/10000
  else 1/100

/-- The matching documents of a listing, in order: name and decoded text of
every ".md"-named readable text file. -/
def mdDocs : List Entry → List (String × String)
  | [] => []
  | e :: es =>
    if strEndsWith e.name ".md" then
      match e.data with
      | .fileE (.text s) => (e.name, s) :: mdDocs es
      | _ => mdDocs es
    else mdDocs es

/-- The matching documents strictly before the first failing one. -/
def docsBeforeAbort : List Entry → List (String × String)
  | [] => []
  | e :: es =>
    if strEndsWith e.name ".md" then
      match e.data with
      | .fileE (.text s) => (e.name, s) :: docsBeforeAbort es
      | _ => []
    else docsBeforeAbort es

/-- The report row a document produces. -/
def docRowOf (d : String × String) : List String :=
  docRow d.1 d.2.length (tokOf d.2)

/-- Sum of the character counts of a document list. -/
def sumChars (docs : List (String × String)) : Nat :=
  (docs.map (fun d => d.2.length)).sum

/-- Sum of the token counts of a document list. -/
def sumToks (docs : List (String × String)) : Nat :=
  (docs.map (fun d => tokOf d.2)).sum

/-- Sum of the parsed-back per-document price strings of a document list
under one model. -/
def sumPrice (model_name : String) (docs : List (String × String)) : ℚ :=
  (docs.map (fun d =>
    parseDec (calculate_estimated_price (tokOf d.2) model_name))).sum

/-- The totals row as the specification describes it, computed from the
matching documents of the listing. -/
def specTotalsRow (folder_path : String) (l : List Entry) : List String :=
  [folder_path, natToString (sumChars (mdDocs l)), natToString (sumToks (mdDocs l)),
   format6 (sumPrice "text-embedding-3-small" (mdDocs l)),
   format6 (sumPrice "text-embedding-3-large" (mdDocs l)),
   format6 (sumPrice "text-embedding-ada-002" (mdDocs l))]

/-- Extend an accumulator by a batch of documents in one step. -/
def extendAcc (acc : RunAcc) (docs : List (String × String)) : RunAcc :=
  { rows := acc.rows ++ docs.map docRowOf
    charTotal := acc.charTotal + sumChars docs
    tokenTotal := acc.tokenTotal + sumToks docs
    smallTotal := acc.smallTotal + sumPrice "text-embedding-3-small" docs
    largeTotal := acc.largeTotal + sumPrice "text-embedding-3-large" docs
    adaTotal := acc.adaTotal + sumPrice "text-embedding-ada-002" docs }

/-- Replace the contents of every subdirectory entry, leaving names and
regular files untouched (used to state that subfolder contents are never
visited). -/
def mapDirContents (g : List (String × FileData) → List (String × FileData)) :
    Entry → Entry
  | ⟨n, .fileE d⟩ => ⟨n, .fileE d⟩
  | ⟨n, .dirE sub⟩ => ⟨n, .dirE (g sub)⟩

/-! ## Lemmas: digits and decimal strings -/

theorem natDigitsAux_eq (fuel : Nat) : ∀ n : Nat, n ≤ fuel → natDigitsAux fuel n = Nat.digits 10 n := by
  induction fuel with
  | zero =>
    intro n hn
    have : n = 0 := Nat.le_zero.mp hn
    subst this
    simp [natDigitsAux]
  | succ f ih =>
    intro n hn
    cases n with
    | zero => simp [natDigitsAux]
    | succ m =>
      have hdiv : (m + 1) / 10 ≤ f := by
        have := Nat.div_lt_self (Nat.succ_pos m) (by norm_num : 1 < 10)
        omega
      rw [natDigitsAux, ih _ hdiv, Nat.digits_def' (by norm_num : 1 < 10) (Nat.succ_pos m)]

theorem natDigits_eq_digits (n : Nat) : natDigits n = Nat.digits 10 n :=
  natDigitsAux_eq n n le_rfl

theorem charDigit_digitChar {d : Nat} (h : d < 10) : charDigit (digitChar d) = d := by
  interval_cases d <;> decide

theorem digitChar_ne_dot {d : Nat} (h : d < 10) : digitChar d ≠ '.' := by
  interval_cases d <;> decide

theorem dot_not_mem_natToDigitChars (n : Nat) : '.' ∉ natToDigitChars n := by
  intro hmem
  rw [natToDigitChars, List.mem_reverse, List.mem_map] at hmem
  obtain ⟨d, hd, hEq⟩ := hmem
  have hlt : d < 10 := by
    apply Nat.digits_lt_base (by norm_num : 1 < 10)
    rwa [natDigits_eq_digits] at hd
  exact digitChar_ne_dot hlt hEq

theorem parseNatC_natToDigitChars (n : Nat) : parseNatC (natToDigitChars n) = n := by
  rw [parseNatC, natToDigitChars, List.map_reverse, List.reverse_reverse, List.map_map]
  have hmap : (natDigits n).map (charDigit ∘ digitChar) = (natDigits n).map id := by
    apply List.map_congr_left
    intro d hd
    have hlt : d < 10 := by
      apply Nat.digits_lt_base (by norm_num : 1 < 10)
      rwa [natDigits_eq_digits] at hd
    exact charDigit_digitChar hlt
  rw [hmap, List.map_id, natDigits_eq_digits, Nat.ofDigits_digits]

theorem charDigit_zeroChar : charDigit '0' = 0 := rfl

theorem map_charDigit_replicate (k : Nat) :
    (List.replicate k '0').map charDigit = List.replicate k 0 := by
  rw [List.map_replicate, charDigit_zeroChar]

theorem ofDigits_replicate_zero (k : Nat) : Nat.ofDigits 10 (List.replicate k 0) = 0 := by
  induction k with
  | zero => rfl
  | succ j ih => rw [List.replicate_succ, Nat.ofDigits_cons, ih]

theorem parseNatC_append_zeros (l : List Char) (k : Nat) :
    parseNatC (l ++ List.replicate k '0') = 10 ^ k * parseNatC l := by
  simp [parseNatC, List.map_append, List.reverse_append, map_charDigit_replicate,
    List.reverse_replicate, Nat.ofDigits_append, ofDigits_replicate_zero, charDigit_zeroChar]

theorem parseNatC_prepend_zeros (l : List Char) (k : Nat) :
    parseNatC (List.replicate k '0' ++ l) = parseNatC l := by
  simp [parseNatC, List.map_append, List.reverse_append, map_charDigit_replicate,
    List.reverse_replicate, Nat.ofDigits_append, ofDigits_replicate_zero, charDigit_zeroChar]

theorem digits_len_le_of_lt {F : Nat} (h : F < 10 ^ 6) : (Nat.digits 10 F).length ≤ 6 := by
  rcases Nat.eq_zero_or_pos F with hF | hF
  · subst hF; simp
  by_contra hlen
  push_neg at hlen
  have h1 : (10 : Nat) ^ (Nat.digits 10 F).length ≤ 10 * F :=
    Nat.base_pow_length_digits_le 10 F (by norm_num) (Nat.pos_iff_ne_zero.mp hF)
  have h2 : (10 : Nat) ^ 7 ≤ 10 ^ (Nat.digits 10 F).length :=
    Nat.pow_le_pow_right (by norm_num) hlen
  have h3 : 10 * F < 10 * 10 ^ 6 := by omega
  norm_num at h2 h3
  omega

theorem fracChars_length {F : Nat} (h : F < 10 ^ 6) : (fracChars F).length = 6 := by
  have hlen : (natToDigitChars F).length ≤ 6 := by
    rw [natToDigitChars, List.length_reverse, List.length_map, natDigits_eq_digits]
    exact digits_len_le_of_lt h
  rw [fracChars, List.length_append, List.length_replicate]
  omega

theorem parseNatC_fracChars (F : Nat) : parseNatC (fracChars F) = F := by
  rw [fracChars, parseNatC_prepend_zeros, parseNatC_natToDigitChars]

theorem dot_not_mem_fracChars (F : Nat) : '.' ∉ fracChars F := by
  intro hmem
  rw [fracChars, List.mem_append] at hmem
  rcases hmem with hmem | hmem
  · exact absurd (List.eq_of_mem_replicate hmem) (by decide)
  · exact dot_not_mem_natToDigitChars F hmem

theorem data_append (s t : String) : (s ++ t).data = s.data ++ t.data := by
  cases s; cases t; rfl

theorem natToString_data (n : Nat) :
    (natToString n).data = if n = 0 then ['0'] else natToDigitChars n := by
  rw [natToString]
  split <;> rfl

theorem dot_not_mem_natToString_data (n : Nat) : '.' ∉ (natToString n).data := by
  rw [natToString_data]
  split
  · decide
  · exact dot_not_mem_natToDigitChars n

theorem parseNat_natToString (n : Nat) : parseNat (natToString n) = n := by
  rw [parseNat, natToString_data]
  split
  · subst n; decide
  · exact parseNatC_natToDigitChars n

/-! ## Lemmas: round half to even -/

theorem le_rhe (q : ℚ) : ⌊q⌋ ≤ rhe q := by
  rw [rhe]; split_ifs <;> omega

theorem rhe_le (q : ℚ) : rhe q ≤ ⌊q⌋ + 1 := by
  rw [rhe]; split_ifs <;> omega

theorem rhe_nonneg {q : ℚ} (h : 0 ≤ q) : 0 ≤ rhe q :=
  le_trans (Int.floor_nonneg.mpr h) (le_rhe q)

theorem rhe_mono {a b : ℚ} (hab : a ≤ b) : rhe a ≤ rhe b := by
  rcases lt_or_eq_of_le (Int.floor_mono hab) with hf | hf
  · calc rhe a ≤ ⌊a⌋ + 1 := rhe_le a
    _ ≤ ⌊b⌋ := by omega
    _ ≤ rhe b := le_rhe b
  · rw [rhe, rhe, hf]
    have hsub : a - (⌊b⌋ : ℚ) ≤ b - (⌊b⌋ : ℚ) := by linarith
    split_ifs <;> first | omega | linarith

theorem rhe_eq_down {q : ℚ} {n : ℤ} (h1 : (n : ℚ) ≤ q) (h2 : q - n < 1/2) : rhe q = n := by
  have hf : ⌊q⌋ = n := Int.floor_eq_iff.mpr ⟨h1, by linarith⟩
  rw [rhe, hf, if_pos h2]

theorem rhe_eq_up {q : ℚ} {n : ℤ} (h1 : (n : ℚ) ≤ q) (h2 : 1/2 < q - n)
    (h3 : q < (n : ℚ) + 1) : rhe q = n + 1 := by
  have hf : ⌊q⌋ = n := Int.floor_eq_iff.mpr ⟨h1, h3⟩
  rw [rhe, hf]
  rw [if_neg (by linarith), if_pos h2]

/-! ## Lemmas: parsing back what format6 and ljustZ render -/

theorem splitDot_append {a : List Char} (b : List Char) (h : '.' ∉ a) :
    splitDot (a ++ '.' :: b) = (a, b) := by
  induction a with
  | nil => simp [splitDot]
  | cons c cs ih =>
    have hc : ¬ c = '.' := fun hEq => h (hEq ▸ List.mem_cons_self c cs)
    have hcs : '.' ∉ cs := fun hm => h (List.mem_cons_of_mem c hm)
    simp only [List.cons_append, splitDot, if_neg hc, List.append_eq]
    rw [ih hcs]

theorem parseDec_of_data {s : String} {a b : List Char}
    (hdata : s.data = a ++ '.' :: b) (hdot : '.' ∉ a) :
    parseDec s = (parseNatC a : ℚ) + (parseNatC b : ℚ) / (10 : ℚ) ^ b.length := by
  rw [parseDec, hdata, splitDot_append b hdot]

theorem format6_data {q : ℚ} (hq : 0 ≤ q) :
    (format6 q).data =
      (natToString ((rhe (q * 1000000)).natAbs / 1000000)).data ++
        '.' :: fracChars ((rhe (q * 1000000)).natAbs % 1000000) := by
  have hN : ¬ rhe (q * 1000000) < 0 :=
    not_lt.mpr (rhe_nonneg (by positivity))
  rw [format6, if_neg hN, data_append, data_append, List.append_assoc]
  rfl

theorem ljustZ_data (s : String) (w : Nat) :
    (ljustZ s w).data = s.data ++ List.replicate (w - s.length) '0' := by
  rw [ljustZ, data_append]

theorem parseDec_ljustZ_format6 {q : ℚ} (hq : 0 ≤ q) (w : Nat) :
    parseDec (ljustZ (format6 q) w) = ((rhe (q * 1000000) : ℤ) : ℚ) / 1000000 := by
  have hN : 0 ≤ rhe (q * 1000000) := rhe_nonneg (by positivity)
  set N := rhe (q * 1000000) with hNdef
  set I := N.natAbs / 1000000 with hI
  set F := N.natAbs % 1000000 with hF
  have hFlt : F < 10 ^ 6 := by
    have : N.natAbs % 1000000 < 1000000 := Nat.mod_lt _ (by norm_num)
    norm_num [hF]
    omega
  have hdata : (ljustZ (format6 q) w).data =
      (natToString I).data ++ '.' :: (fracChars F ++ List.replicate (w - (format6 q).length) '0') := by
    rw [ljustZ_data, format6_data hq, List.append_assoc, List.cons_append]
  have hparse := parseDec_of_data hdata (dot_not_mem_natToString_data I)
  rw [hparse, parseNatC_append_zeros, parseNatC_fracChars]
  have hlen : (fracChars F ++ List.replicate (w - (format6 q).length) '0').length =
      6 + (w - (format6 q).length) := by
    rw [List.length_append, fracChars_length hFlt, List.length_replicate]
  rw [hlen]
  have hIparse : parseNatC (natToString I).data = I := parseNat_natToString I
  rw [hIparse]
  have hsplit : N.natAbs = 1000000 * I + F := (Nat.div_add_mod N.natAbs 1000000).symm
  have hcast : ((N.natAbs : ℤ) : ℚ) = ((N : ℤ) : ℚ) := by
    rw [Int.natAbs_of_nonneg hN]
  have hNQ : ((N : ℤ) : ℚ) = 1000000 * (I : ℚ) + (F : ℚ) := by
    rw [← hcast]
    push_cast [hsplit]
    ring
  rw [hNQ]
  have h10 : ((10 : ℚ)) ^ (6 + (w - (format6 q).length)) =
      1000000 * 10 ^ (w - (format6 q).length) := by
    rw [pow_add]
    norm_num
  rw [h10]
  have hpowpos : (0 : ℚ) < 10 ^ (w - (format6 q).length) := by positivity
  push_cast
  field_simp
  ring

/-! ## Lemmas: the price estimator -/

theorem calculate_eq_spec (t : Nat) (m : String) :
    calculate_estimated_price t m = ljustZ (format6 ((t : ℚ) / 1000 * specRate m)) 10 := by
  rw [calculate_estimated_price, specRate]
  by_cases h1 : m = "text-embedding-3-small"
  · subst h1; rfl
  · by_cases h2 : m = "text-embedding-3-large"
    · subst h2; rfl
    · by_cases h3 : m = "text-embedding-ada-002"
      · subst h3; rfl
      · rw [if_neg h1, if_neg h2, if_neg h3]
        have hb1 : (m == "text-embedding-3-small") = false := beq_eq_false_iff_ne.mpr h1
        have hb2 : (m == "text-embedding-3-large") = false := beq_eq_false_iff_ne.mpr h2
        have hb3 : (m == "text-embedding-ada-002") = false := beq_eq_false_iff_ne.mpr h3
        have hlook : pricing.lookup m = none := by
          simp [pricing, List.lookup, hb1, hb2, hb3]
        rw [hlook]

theorem specRate_nonneg (m : String) : 0 ≤ specRate m := by
  rw [specRate]
  split_ifs <;> norm_num

theorem priceValue_nonneg (t : Nat) (m : String) :
    0 ≤ (t : ℚ) / 1000 * specRate m := by
  have := specRate_nonneg m
  positivity

theorem parseDec_price (t : Nat) (m : String) :
    parseDec (calculate_estimated_price t m) =
      ((rhe ((t : ℚ) / 1000 * specRate m * 1000000) : ℤ) : ℚ) / 1000000 := by
  rw [calculate_eq_spec, parseDec_ljustZ_format6 (priceValue_nonneg t m)]

/-! ## Lemmas: the processing loop -/

theorem tokenize_text (s : String) :
    tokenize_md_file (.text s) = some (s.length, tokOf s) := by
  simp [tokenize_md_file, num_tokens_from_string, get_encoding, tokOf]

theorem readData_text (nm s : String) :
    readData ⟨nm, .fileE (.text s)⟩ = some (s.length, tokOf s) := by
  simp [readData, readEntry, tokenize_text]

theorem readData_undecodable (nm : String) :
    readData ⟨nm, .fileE .undecodable⟩ = none := rfl

theorem readData_dir (nm : String) (sub : List (String × FileData)) :
    readData ⟨nm, .dirE sub⟩ = none := rfl

theorem extendAcc_cons (acc : RunAcc) (d : String × String) (ds : List (String × String)) :
    extendAcc acc (d :: ds) = extendAcc (stepAcc acc d.1 d.2.length (tokOf d.2)) ds := by
  cases acc
  simp [extendAcc, stepAcc, docRowOf, sumChars, sumToks, sumPrice, List.append_assoc,
    add_assoc]

theorem extendAcc_nil (acc : RunAcc) : extendAcc acc [] = acc := by
  cases acc
  simp [extendAcc, sumChars, sumToks, sumPrice]

theorem runFold_success (l : List Entry) : ∀ acc : RunAcc, (runFold acc l).2 = false →
    runFold acc l = (extendAcc acc (mdDocs l), false) := by
  induction l with
  | nil =>
    intro acc _
    rw [runFold, mdDocs, extendAcc_nil]
  | cons e es ih =>
    intro acc h
    rcases e with ⟨nm, dt⟩
    by_cases hmd : strEndsWith nm ".md"
    · rcases dt with d | sub
      · rcases d with s | _
        · rw [runFold] at h ⊢
          simp only [hmd, if_true, readData_text] at h ⊢
          rw [mdDocs]
          simp only [hmd, if_true]
          rw [ih _ h, extendAcc_cons]
        · rw [runFold] at h
          simp [hmd, readData_undecodable] at h
      · rw [runFold] at h
        simp [hmd, readData_dir] at h
    · rw [runFold] at h ⊢
      simp only [hmd, if_false] at h ⊢
      rw [mdDocs]
      simp only [hmd, if_false]
      exact ih acc h

theorem runFold_abort (l : List Entry) : ∀ acc : RunAcc, (runFold acc l).2 = true →
    (runFold acc l).1.rows = acc.rows ++ (docsBeforeAbort l).map docRowOf := by
  induction l with
  | nil =>
    intro acc h
    rw [runFold] at h
    simp at h
  | cons e es ih =>
    intro acc h
    rcases e with ⟨nm, dt⟩
    by_cases hmd : strEndsWith nm ".md"
    · rcases dt with d | sub
      · rcases d with s | _
        · rw [runFold] at h ⊢
          simp only [hmd, if_true, readData_text] at h ⊢
          rw [docsBeforeAbort]
          simp only [hmd, if_true]
          rw [ih _ h]
          simp [stepAcc, docRowOf, List.append_assoc]
        · rw [runFold]
          rw [docsBeforeAbort]
          simp [hmd, readData_undecodable]
      · rw [runFold]
        rw [docsBeforeAbort]
        simp [hmd, readData_dir]
    · rw [runFold] at h ⊢
      simp only [hmd, if_false] at h ⊢
      rw [docsBeforeAbort]
      simp only [hmd, if_false]
      exact ih acc h

theorem runFold_filter (l : List Entry) : ∀ acc : RunAcc,
    runFold acc (l.filter (fun e => strEndsWith e.name ".md")) = runFold acc l := by
  induction l with
  | nil => intro acc; rfl
  | cons e es ih =>
    intro acc
    by_cases hmd : strEndsWith e.name ".md"
    · have hf : (e :: es).filter (fun x => strEndsWith x.name ".md") =
          e :: es.filter (fun x => strEndsWith x.name ".md") := by
        simp [List.filter_cons, hmd]
      rw [hf, runFold, runFold]
      simp only [hmd, if_true]
      cases hrd : readData e with
      | none => rfl
      | some ct => exact ih _
    · have hf : (e :: es).filter (fun x => strEndsWith x.name ".md") =
          es.filter (fun x => strEndsWith x.name ".md") := by
        simp [List.filter_cons, hmd]
      rw [hf, ih acc, runFold, if_neg hmd]

theorem runFold_mapDir (g : List (String × FileData) → List (String × FileData))
    (l : List Entry) : ∀ acc : RunAcc,
    runFold acc (l.map (mapDirContents g)) = runFold acc l := by
  induction l with
  | nil => intro acc; rfl
  | cons e es ih =>
    intro acc
    rcases e with ⟨nm, dt⟩
    rcases dt with d | sub
    · rw [List.map_cons, mapDirContents, runFold, runFold]
      by_cases hmd : strEndsWith nm ".md"
      · simp only [hmd, if_true]
        cases hrd : readData ⟨nm, .fileE d⟩ with
        | none => rfl
        | some ct => exact ih _
      · simp only [hmd, if_false]
        exact ih acc
    · rw [List.map_cons, mapDirContents, runFold, runFold]
      by_cases hmd : strEndsWith nm ".md"
      · simp only [hmd, if_true, readData_dir]
      · simp only [hmd, if_false]
        exact ih acc

theorem runFold_noMd (l : List Entry)
    (h : ∀ e ∈ l, strEndsWith e.name ".md" = false) :
    ∀ acc : RunAcc, runFold acc l = (acc, false) := by
  induction l with
  | nil => intro acc; rfl
  | cons e es ih =>
    intro acc
    have hmd : strEndsWith e.name ".md" = false := h e (List.mem_cons_self e es)
    rw [runFold]
    simp only [hmd, if_false, Bool.false_eq_true]
    exact ih (fun x hx => h x (List.mem_cons_of_mem e hx)) acc

theorem process_aborted_eq (fp : String) (prev : Option (List (List String)))
    (l : List Entry) :
    (process_md_files_in_folder fp prev l).aborted = (runFold initAcc l).2 := by
  rw [process_md_files_in_folder]
  by_cases h : (runFold initAcc l).2 <;> simp [h]

theorem process_success_eq (fp : String) (prev : Option (List (List String)))
    (l : List Entry) (h : (process_md_files_in_folder fp prev l).aborted = false) :
    process_md_files_in_folder fp prev l =
      ⟨headerRow :: ((mdDocs l).map docRowOf ++ [specTotalsRow fp l]), false⟩ := by
  have h2 : (runFold initAcc l).2 = false := by
    rw [← process_aborted_eq fp prev l]
    exact h
  rw [process_md_files_in_folder]
  rw [runFold_success l initAcc h2]
  simp only [if_neg (by simp : ¬ (false = true))]
  rw [openWrite]
  have htot : totalsRow fp (extendAcc initAcc (mdDocs l)) = specTotalsRow fp l := by
    simp [totalsRow, extendAcc, initAcc, specTotalsRow]
  have hrows : (extendAcc initAcc (mdDocs l)).rows = (mdDocs l).map docRowOf := by
    simp [extendAcc, initAcc]
  rw [htot, hrows]
  rfl

theorem process_abort_eq (fp : String) (prev : Option (List (List String)))
    (l : List Entry) (h : (process_md_files_in_folder fp prev l).aborted = true) :
    (process_md_files_in_folder fp prev l).file =
      headerRow :: (docsBeforeAbort l).map docRowOf := by
  have h2 : (runFold initAcc l).2 = true := by
    rw [← process_aborted_eq fp prev l]
    exact h
  rw [process_md_files_in_folder]
  simp only [h2, if_pos]
  rw [openWrite]
  rw [runFold_abort l initAcc h2]
  simp [initAcc]

/-! ## Remaining helper lemmas for the claim theorems -/

theorem getLastD_append_single {α : Type} (m : List α) (t d : α) :
    (m ++ [t]).getLastD d = t := by
  induction m generalizing d with
  | nil => rfl
  | cons a as ih => rw [List.cons_append, List.getLastD_cons, ih]

theorem length_eq_data_length (s : String) : s.length = s.data.length := rfl

theorem ljustZ_length (s : String) (w : Nat) :
    (ljustZ s w).length = s.length + (w - s.length) := by
  have h1 : (ljustZ s w).length = (ljustZ s w).data.length := rfl
  rw [h1, ljustZ_data, List.length_append, List.length_replicate]
  rfl

theorem format6_zero : format6 0 = "0.000000" := by
  have h0 : rhe ((0 : ℚ) * 1000000) = 0 := rhe_eq_down (by norm_num) (by norm_num)
  rw [format6, h0]
  decide

theorem string_ne_empty_data {s : String} (h : s ≠ "") : s.data ≠ [] := by
  intro hd
  apply h
  cases s
  simp at hd
  rw [hd]

/-! ## Claim theorems -/

/-- C1: for every non-negative integer token count and every model name, the
price estimator returns (token_count / 1000) multiplied by the rate looked
up for that model in the fixed pricing table (0.00002 for
text-embedding-3-small, 0.00013 for text-embedding-3-large, 0.00010 for
text-embedding-ada-002, the default rate 0.01 for any other name),
formatted with exactly six decimal places (`format6`) and right-padded with
trailing zero characters to a length of at least ten. -/
theorem c1_price_formula (token_count : Nat) (model_name : String) :
    calculate_estimated_price token_count model_name =
      ljustZ (format6 ((token_count : ℚ) / 1000 * specRate model_name)) 10 ∧
    10 ≤ (calculate_estimated_price token_count model_name).length ∧
    specRate "text-embedding-3-small" = 2/100000 ∧
    specRate "text-embedding-3-large" = 13/100000 ∧
    specRate "text-embedding-ada-002" = 1/10000 ∧
    (∀ m : String, m ≠ "text-embedding-3-small" → m ≠ "text-embedding-3-large" →
      m ≠ "text-embedding-ada-002" → specRate m = 1/100) := by
  refine ⟨calculate_eq_spec token_count model_name, ?_, rfl, rfl, rfl, ?_⟩
  · rw [calculate_eq_spec, ljustZ_length]
    omega
  · intro m h1 h2 h3
    rw [specRate, if_neg h1, if_neg h2, if_neg h3]

/-- C7: for every token count, calling the price estimator with a model
name absent from the pricing table is not an error: it returns the defined
price computed with the default rate 0.01 (the estimator is a total pure
function, so it has no side effects). -/
theorem c7_unknown_model_default (token_count : Nat) (model_name : String)
    (h : pricing.lookup model_name = none) :
    calculate_estimated_price token_count model_name =
      ljustZ (format6 ((token_count : ℚ) / 1000 * (1/100))) 10 := by
  rw [calculate_estimated_price, h]

/-- Witness for C7 at token count 1234 and the unknown model name "gpt-4". -/
theorem c7_witness :
    pricing.lookup "gpt-4" = none ∧
    calculate_estimated_price 1234 "gpt-4" =
      ljustZ (format6 ((1234 : ℚ) / 1000 * (1/100))) 10 :=
  ⟨by decide, c7_unknown_model_default 1234 "gpt-4" (by decide)⟩

/-- C8: for every fixed model name the estimated price is monotonically
non-decreasing in the token count, comparing the numeric values (`parseDec`)
of the returned price strings. -/
theorem c8_price_monotone (model_name : String) (t1 t2 : Nat) (h : t1 ≤ t2) :
    parseDec (calculate_estimated_price t1 model_name) ≤
      parseDec (calculate_estimated_price t2 model_name) := by
  rw [parseDec_price, parseDec_price]
  have hc : ((t1 : ℚ)) ≤ (t2 : ℚ) := by exact_mod_cast h
  have hr := specRate_nonneg model_name
  have hdiv : (t1 : ℚ) / 1000 ≤ (t2 : ℚ) / 1000 := by linarith
  have harg : (t1 : ℚ) / 1000 * specRate model_name * 1000000 ≤
      (t2 : ℚ) / 1000 * specRate model_name * 1000000 := by
    have hmul := mul_le_mul_of_nonneg_right hdiv hr
    linarith
  have hint : ((rhe ((t1 : ℚ) / 1000 * specRate model_name * 1000000) : ℤ) : ℚ) ≤
      ((rhe ((t2 : ℚ) / 1000 * specRate model_name * 1000000) : ℤ) : ℚ) := by
    exact_mod_cast rhe_mono harg
  linarith

/-- Witness for C8 at token counts 3 and 100000 under
text-embedding-3-large. -/
theorem c8_witness :
    3 ≤ 100000 ∧
    parseDec (calculate_estimated_price 3 "text-embedding-3-large") ≤
      parseDec (calculate_estimated_price 100000 "text-embedding-3-large") :=
  ⟨by norm_num, c8_price_monotone "text-embedding-3-large" 3 100000 (by norm_num)⟩

/-- C9: for every non-empty text input the token counter under the fixed
scheme returns a count of at least one, and the count is a function of the
input text alone (deterministic).  The tokenizer itself is modelled from
the spec, see `cl100k_base_encode`. -/
theorem c9_token_count (s : String) (h : s ≠ "") :
    num_tokens_from_string s "cl100k_base" = some (tokOf s) ∧ 1 ≤ tokOf s := by
  constructor
  · simp [num_tokens_from_string, get_encoding, tokOf]
  · have hd : s.data ≠ [] := string_ne_empty_data h
    have hpos := List.length_pos.mpr hd
    simpa [tokOf, cl100k_base_encode] using hpos

/-- Witness for C9 at the one-character text "a". -/
theorem c9_witness :
    ("a" : String) ≠ "" ∧
    (num_tokens_from_string "a" "cl100k_base" = some (tokOf "a") ∧ 1 ≤ tokOf "a") :=
  ⟨by decide, c9_token_count "a" (by decide)⟩

/-- C2: on every completed run the totals row's filename field holds the
source folder path, and its character-count and token-count fields are the
exact integer sums of the corresponding fields written in the document
rows. -/
theorem c2_totals_exact_sums (folder_path : String)
    (previous : Option (List (List String))) (listing : List Entry)
    (h : (process_md_files_in_folder folder_path previous listing).aborted = false) :
    ((process_md_files_in_folder folder_path previous listing).file.getLastD []).getD 0 "" =
      folder_path ∧
    parseNat (((process_md_files_in_folder folder_path previous listing).file.getLastD []).getD 1 "") =
      ((((process_md_files_in_folder folder_path previous listing).file.drop 1).dropLast).map
        (fun r => parseNat (r.getD 1 ""))).sum ∧
    parseNat (((process_md_files_in_folder folder_path previous listing).file.getLastD []).getD 2 "") =
      ((((process_md_files_in_folder folder_path previous listing).file.drop 1).dropLast).map
        (fun r => parseNat (r.getD 2 ""))).sum := by
  rw [process_success_eq folder_path previous listing h]
  have hLast : ((⟨headerRow :: ((mdDocs listing).map docRowOf ++
      [specTotalsRow folder_path listing]), false⟩ : RunResult).file).getLastD ([] : List String) =
      specTotalsRow folder_path listing := by
    show (headerRow :: ((mdDocs listing).map docRowOf ++
      [specTotalsRow folder_path listing])).getLastD ([] : List String) = _
    rw [List.getLastD_cons, getLastD_append_single]
  have hD : (((⟨headerRow :: ((mdDocs listing).map docRowOf ++
      [specTotalsRow folder_path listing]), false⟩ : RunResult).file).drop 1).dropLast =
      (mdDocs listing).map docRowOf := by
    show ((headerRow :: ((mdDocs listing).map docRowOf ++
      [specTotalsRow folder_path listing])).drop 1).dropLast = _
    rw [List.drop_succ_cons, List.drop_zero, List.dropLast_concat]
  rw [hLast, hD]
  refine ⟨rfl, ?_, ?_⟩
  · have hsum : (((mdDocs listing).map docRowOf).map (fun r => parseNat (r.getD 1 ""))).sum =
        sumChars (mdDocs listing) := by
      rw [List.map_map, sumChars]
      congr 1
      apply List.map_congr_left
      intro d _
      show parseNat ((docRowOf d).getD 1 "") = d.2.length
      show parseNat (natToString d.2.length) = d.2.length
      exact parseNat_natToString _
    rw [hsum]
    show parseNat (natToString (sumChars (mdDocs listing))) = sumChars (mdDocs listing)
    exact parseNat_natToString _
  · have hsum : (((mdDocs listing).map docRowOf).map (fun r => parseNat (r.getD 2 ""))).sum =
        sumToks (mdDocs listing) := by
      rw [List.map_map, sumToks]
      congr 1
      apply List.map_congr_left
      intro d _
      show parseNat ((docRowOf d).getD 2 "") = tokOf d.2
      show parseNat (natToString (tokOf d.2)) = tokOf d.2
      exact parseNat_natToString _
    rw [hsum]
    show parseNat (natToString (sumToks (mdDocs listing))) = sumToks (mdDocs listing)
    exact parseNat_natToString _

/-- Witness for C2 on a two-document folder. -/
theorem c2_witness :
    (process_md_files_in_folder "folder" none
        [⟨"a.md", .fileE (.text "hi")⟩, ⟨"b.md", .fileE (.text "")⟩]).aborted = false ∧
    (((process_md_files_in_folder "folder" none
        [⟨"a.md", .fileE (.text "hi")⟩, ⟨"b.md", .fileE (.text "")⟩]).file.getLastD []).getD 0 "" =
      "folder" ∧
    parseNat (((process_md_files_in_folder "folder" none
        [⟨"a.md", .fileE (.text "hi")⟩, ⟨"b.md", .fileE (.text "")⟩]).file.getLastD []).getD 1 "") =
      ((((process_md_files_in_folder "folder" none
        [⟨"a.md", .fileE (.text "hi")⟩, ⟨"b.md", .fileE (.text "")⟩]).file.drop 1).dropLast).map
        (fun r => parseNat (r.getD 1 ""))).sum ∧
    parseNat (((process_md_files_in_folder "folder" none
        [⟨"a.md", .fileE (.text "hi")⟩, ⟨"b.md", .fileE (.text "")⟩]).file.getLastD []).getD 2 "") =
      ((((process_md_files_in_folder "folder" none
        [⟨"a.md", .fileE (.text "hi")⟩, ⟨"b.md", .fileE (.text "")⟩]).file.drop 1).dropLast).map
        (fun r => parseNat (r.getD 2 ""))).sum) := by
  have hab : (process_md_files_in_folder "folder" none
      [⟨"a.md", .fileE (.text "hi")⟩, ⟨"b.md", .fileE (.text "")⟩]).aborted = false := by
    decide
  exact ⟨hab, c2_totals_exact_sums "folder" none _ hab⟩

/-- C3: on every completed run, and whatever file content existed at the
destination before the run, the report is exactly the fixed header row,
then one row per matching document in listing order, then the single
totals row, and nothing else. -/
theorem c3_report_structure (folder_path : String)
    (previous : Option (List (List String))) (listing : List Entry)
    (h : (process_md_files_in_folder folder_path previous listing).aborted = false) :
    (process_md_files_in_folder folder_path previous listing).file =
      headerRow :: ((mdDocs listing).map docRowOf ++ [specTotalsRow folder_path listing]) ∧
    headerRow = ["Filename", "Character Count", "Tokens", "text-embedding-3-small",
      "text-embedding-3-large", "text-embedding-ada-002"] := by
  refine ⟨?_, rfl⟩
  rw [process_success_eq folder_path previous listing h]

/-- Witness for C3 on a one-document folder with stale previous content at
the destination. -/
theorem c3_witness :
    (process_md_files_in_folder "folder" (some [["stale"]])
        [⟨"a.md", .fileE (.text "hi")⟩]).aborted = false ∧
    ((process_md_files_in_folder "folder" (some [["stale"]])
        [⟨"a.md", .fileE (.text "hi")⟩]).file =
      headerRow :: ((mdDocs [⟨"a.md", .fileE (.text "hi")⟩]).map docRowOf ++
        [specTotalsRow "folder" [⟨"a.md", .fileE (.text "hi")⟩]]) ∧
    headerRow = ["Filename", "Character Count", "Tokens", "text-embedding-3-small",
      "text-embedding-3-large", "text-embedding-ada-002"]) := by
  have hab : (process_md_files_in_folder "folder" (some [["stale"]])
      [⟨"a.md", .fileE (.text "hi")⟩]).aborted = false := by decide
  exact ⟨hab, c3_report_structure "folder" (some [["stale"]]) _ hab⟩

/-- C4: entries whose name does not end in ".md" are skipped (removing them
changes nothing about the run), and enumeration is non-recursive (replacing
the contents of every subdirectory entry changes nothing about the run). -/
theorem c4_filter_and_nonrecursive (folder_path : String)
    (previous : Option (List (List String))) (listing : List Entry)
    (g : List (String × FileData) → List (String × FileData)) :
    process_md_files_in_folder folder_path previous
        (listing.filter (fun e => strEndsWith e.name ".md")) =
      process_md_files_in_folder folder_path previous listing ∧
    process_md_files_in_folder folder_path previous
        (listing.map (mapDirContents g)) =
      process_md_files_in_folder folder_path previous listing := by
  constructor
  · rw [process_md_files_in_folder, process_md_files_in_folder,
      runFold_filter listing initAcc]
  · rw [process_md_files_in_folder, process_md_files_in_folder,
      runFold_mapDir g listing initAcc]

/-- Counterexample to C5 as stated: on a folder whose second document is
undecodable, the run aborts, yet the destination file is left holding the
header row and the row of the first document — a partial report is
produced, contradicting "no partial report is produced". -/
theorem c5_counterexample :
    (process_md_files_in_folder "folder" none
        [⟨"a.md", .fileE (.text "hi")⟩, ⟨"b.md", .fileE .undecodable⟩,
         ⟨"c.md", .fileE (.text "x")⟩]).aborted = true ∧
    (process_md_files_in_folder "folder" none
        [⟨"a.md", .fileE (.text "hi")⟩, ⟨"b.md", .fileE .undecodable⟩,
         ⟨"c.md", .fileE (.text "x")⟩]).file.length = 2 ∧
    ((process_md_files_in_folder "folder" none
        [⟨"a.md", .fileE (.text "hi")⟩, ⟨"b.md", .fileE .undecodable⟩,
         ⟨"c.md", .fileE (.text "x")⟩]).file.getD 1 []).getD 0 "" = "a.md" := by
  refine ⟨by decide, by decide, by decide⟩

/-- C5 as amended: when a matching document cannot be decoded the run
aborts there — the exception propagates, no later document is processed and
no totals row is written — but the destination file is left containing the
header row and the rows of the documents processed before the failure (a
partial report). -/
theorem c5_abort_behavior (folder_path : String)
    (previous : Option (List (List String))) (listing : List Entry)
    (h : (process_md_files_in_folder folder_path previous listing).aborted = true) :
    (process_md_files_in_folder folder_path previous listing).file =
      headerRow :: (docsBeforeAbort listing).map docRowOf :=
  process_abort_eq folder_path previous listing h

/-- Witness for the amended C5 on a folder aborting at its second
document. -/
theorem c5_witness :
    (process_md_files_in_folder "folder" none
        [⟨"a.md", .fileE (.text "hi")⟩, ⟨"b.md", .fileE .undecodable⟩,
         ⟨"c.md", .fileE (.text "ok")⟩]).aborted = true ∧
    (process_md_files_in_folder "folder" none
        [⟨"a.md", .fileE (.text "hi")⟩, ⟨"b.md", .fileE .undecodable⟩,
         ⟨"c.md", .fileE (.text "ok")⟩]).file =
      headerRow :: (docsBeforeAbort
        [⟨"a.md", .fileE (.text "hi")⟩, ⟨"b.md", .fileE .undecodable⟩,
         ⟨"c.md", .fileE (.text "ok")⟩]).map docRowOf := by
  have hab : (process_md_files_in_folder "folder" none
      [⟨"a.md", .fileE (.text "hi")⟩, ⟨"b.md", .fileE .undecodable⟩,
       ⟨"c.md", .fileE (.text "ok")⟩]).aborted = true := by decide
  exact ⟨hab, c5_abort_behavior "folder" none _ hab⟩

/-- C6: a folder with no matching documents yields exactly the header row
plus one totals row whose numeric fields are all zero. -/
theorem c6_empty_folder (folder_path : String)
    (previous : Option (List (List String))) (listing : List Entry)
    (h : ∀ e ∈ listing, strEndsWith e.name ".md" = false) :
    process_md_files_in_folder folder_path previous listing =
      ⟨[headerRow, [folder_path, "0", "0", "0.000000", "0.000000", "0.000000"]], false⟩ := by
  rw [process_md_files_in_folder, runFold_noMd listing h initAcc]
  have htot : totalsRow folder_path initAcc =
      [folder_path, "0", "0", "0.000000", "0.000000", "0.000000"] := by
    show [folder_path, natToString 0, natToString 0, format6 0, format6 0, format6 0] = _
    rw [format6_zero]
    rfl
  simp [openWrite, htot, show initAcc.rows = [] from rfl]

/-- Witness for C6 on a folder holding only a ".txt" entry. -/
theorem c6_witness :
    (∀ e ∈ [(⟨"notes.txt", .fileE (.text "zz")⟩ : Entry)],
      strEndsWith e.name ".md" = false) ∧
    process_md_files_in_folder "folder" none [⟨"notes.txt", .fileE (.text "zz")⟩] =
      ⟨[headerRow, ["folder", "0", "0", "0.000000", "0.000000", "0.000000"]], false⟩ := by
  have hx : ∀ e ∈ [(⟨"notes.txt", .fileE (.text "zz")⟩ : Entry)],
      strEndsWith e.name ".md" = false := by
    intro e he
    rw [List.mem_singleton] at he
    subst he
    decide
  exact ⟨hx, c6_empty_folder "folder" none _ hx⟩

/-- C10: on every completed run, each price field of the totals row is the
six-decimal formatting — with no padding to ten characters — of the sum of
the per-document prices of that column, each parsed back (`parseDec`) from
its formatted string in the document rows. -/
theorem c10_totals_prices (folder_path : String)
    (previous : Option (List (List String))) (listing : List Entry)
    (h : (process_md_files_in_folder folder_path previous listing).aborted = false) :
    ((process_md_files_in_folder folder_path previous listing).file.getLastD []).getD 3 "" =
      format6 (((((process_md_files_in_folder folder_path previous listing).file.drop 1).dropLast).map
        (fun r => parseDec (r.getD 3 ""))).sum) ∧
    ((process_md_files_in_folder folder_path previous listing).file.getLastD []).getD 4 "" =
      format6 (((((process_md_files_in_folder folder_path previous listing).file.drop 1).dropLast).map
        (fun r => parseDec (r.getD 4 ""))).sum) ∧
    ((process_md_files_in_folder folder_path previous listing).file.getLastD []).getD 5 "" =
      format6 (((((process_md_files_in_folder folder_path previous listing).file.drop 1).dropLast).map
        (fun r => parseDec (r.getD 5 ""))).sum) := by
  rw [process_success_eq folder_path previous listing h]
  have hLast : ((⟨headerRow :: ((mdDocs listing).map docRowOf ++
      [specTotalsRow folder_path listing]), false⟩ : RunResult).file).getLastD ([] : List String) =
      specTotalsRow folder_path listing := by
    show (headerRow :: ((mdDocs listing).map docRowOf ++
      [specTotalsRow folder_path listing])).getLastD ([] : List String) = _
    rw [List.getLastD_cons, getLastD_append_single]
  have hD : (((⟨headerRow :: ((mdDocs listing).map docRowOf ++
      [specTotalsRow folder_path listing]), false⟩ : RunResult).file).drop 1).dropLast =
      (mdDocs listing).map docRowOf := by
    show ((headerRow :: ((mdDocs listing).map docRowOf ++
      [specTotalsRow folder_path listing])).drop 1).dropLast = _
    rw [List.drop_succ_cons, List.drop_zero, List.dropLast_concat]
  rw [hLast, hD]
  have hmap : ∀ i : Nat, ∀ m : String, (∀ d : String × String,
        (docRowOf d).getD i "" = calculate_estimated_price (tokOf d.2) m) →
      (((mdDocs listing).map docRowOf).map (fun r => parseDec (r.getD i ""))).sum =
        sumPrice m (mdDocs listing) := by
    intro i m hfield
    rw [List.map_map, sumPrice]
    congr 1
    apply List.map_congr_left
    intro d _
    show parseDec ((docRowOf d).getD i "") = _
    rw [hfield d]
  refine ⟨?_, ?_, ?_⟩
  · rw [hmap 3 "text-embedding-3-small" (fun d => rfl)]
    rfl
  · rw [hmap 4 "text-embedding-3-large" (fun d => rfl)]
    rfl
  · rw [hmap 5 "text-embedding-ada-002" (fun d => rfl)]
    rfl

/-- Witness for C10 on a two-document folder whose per-document prices
round upward, so that the totals differ from what unrounded sums would
give. -/
theorem c10_witness :
    (process_md_files_in_folder "folder" none
        [⟨"a.md", .fileE (.text "abcdefghijklmnopqrstuvwxyz0123")⟩,
         ⟨"b.md", .fileE (.text "abcdefghijklmnopqrstuvwxyz0123")⟩]).aborted = false ∧
    (((process_md_files_in_folder "folder" none
        [⟨"a.md", .fileE (.text "abcdefghijklmnopqrstuvwxyz0123")⟩,
         ⟨"b.md", .fileE (.text "abcdefghijklmnopqrstuvwxyz0123")⟩]).file.getLastD []).getD 3 "" =
      format6 (((((process_md_files_in_folder "folder" none
        [⟨"a.md", .fileE (.text "abcdefghijklmnopqrstuvwxyz0123")⟩,
         ⟨"b.md", .fileE (.text "abcdefghijklmnopqrstuvwxyz0123")⟩]).file.drop 1).dropLast).map
        (fun r => parseDec (r.getD 3 ""))).sum) ∧
    ((process_md_files_in_folder "folder" none
        [⟨"a.md", .fileE (.text "abcdefghijklmnopqrstuvwxyz0123")⟩,
         ⟨"b.md", .fileE (.text "abcdefghijklmnopqrstuvwxyz0123")⟩]).file.getLastD []).getD 4 "" =
      format6 (((((process_md_files_in_folder "folder" none
        [⟨"a.md", .fileE (.text "abcdefghijklmnopqrstuvwxyz0123")⟩,
         ⟨"b.md", .fileE (.text "abcdefghijklmnopqrstuvwxyz0123")⟩]).file.drop 1).dropLast).map
        (fun r => parseDec (r.getD 4 ""))).sum) ∧
    ((process_md_files_in_folder "folder" none
        [⟨"a.md", .fileE (.text "abcdefghijklmnopqrstuvwxyz0123")⟩,
         ⟨"b.md", .fileE (.text "abcdefghijklmnopqrstuvwxyz0123")⟩]).file.getLastD []).getD 5 "" =
      format6 (((((process_md_files_in_folder "folder" none
        [⟨"a.md", .fileE (.text "abcdefghijklmnopqrstuvwxyz0123")⟩,
         ⟨"b.md", .fileE (.text "abcdefghijklmnopqrstuvwxyz0123")⟩]).file.drop 1).dropLast).map
        (fun r => parseDec (r.getD 5 ""))).sum)) := by
  have hab : (process_md_files_in_folder "folder" none
      [⟨"a.md", .fileE (.text "abcdefghijklmnopqrstuvwxyz0123")⟩,
       ⟨"b.md", .fileE (.text "abcdefghijklmnopqrstuvwxyz0123")⟩]).aborted = false := by decide
  exact ⟨hab, c10_totals_prices "folder" none _ hab⟩

end LogseqTokenizer
